import Mathlib

/-!
Verification development for the biometric enrollment/verification demo.

The embedding follows the JavaScript source:
- assets/js/crypto/hash-generator.js   (HashGenerator)
- assets/js/crypto/salt-generator.js   (SaltGenerator)
- the in-memory Map storage variant    (BiometricStorage, namespace MapStore)
- the localStorage storage variant     (BiometricStorage, namespace LocalStore)
- the enrollment/verification flows    (EnrollmentSimulation / VerificationSimulation)

JavaScript dynamic-typing details that matter are modelled explicitly:
empty strings are falsy, a Map/localStorage namespace is shared between
enrollment records and verification logs, and operations that would throw a
TypeError are modelled with Option (none = the call throws).

crypto.subtle.digest and crypto.getRandomValues are platform primitives, not
repository code; they enter the embedding as parameters (a digest function and
a random-byte stream respectively).
-/

/-! ## HashGenerator (assets/js/crypto/hash-generator.js) -/

/-- One iteration of the comparison loop of HashGenerator.compareHashes:
result |= hash1.charCodeAt(i) ^ hash2.charCodeAt(i), and the iteration counter.
The accumulator is the running value of the variable result; the second
component counts how many character positions the loop has examined. -/
def compareLoop (acc steps : Nat) : List (Char × Char) → Nat × Nat
  | [] => (acc, steps)
  | p :: ps => compareLoop (acc ||| (p.1.toNat ^^^ p.2.toNat)) (steps + 1) ps

/-- HashGenerator.compareHashes. The first guard models the JS falsiness test
if (!hash1 || !hash2) return false, which is taken when either string is
empty. The second guard is the length check; then the loop XOR-accumulates
every character pair and the result is compared with 0. -/
def compareHashes (hash1 hash2 : String) : Bool :=
  if hash1 = "" ∨ hash2 = "" then false
  else if hash1.length ≠ hash2.length then false
  else (compareLoop 0 0 (hash1.data.zip hash2.data)).1 == 0

/-- Number of character positions the compareHashes loop examines on the given
inputs (0 when one of the two guards returns early). -/
def compareHashesSteps (hash1 hash2 : String) : Nat :=
  if hash1 = "" ∨ hash2 = "" then 0
  else if hash1.length ≠ hash2.length then 0
  else (compareLoop 0 0 (hash1.data.zip hash2.data)).2

/-- HashGenerator.hash. The digest primitive crypto.subtle.digest is external
to the repository and is passed in as a parameter mapping (algorithm, data) to
an optional hex digest; none models the primitive throwing (unsupported
algorithm), which hash converts into its own error. -/
def jsHash (digest : String → String → Option String) (data : String)
    (algorithm : String) : Except String String :=
  match digest algorithm data with
  | some h => .ok h
  | none => .error ("Failed to generate " ++ algorithm ++ " hash")

/-- HashGenerator.hashWithSalt: const saltedData = data + salt; then hash. -/
def hashWithSalt (digest : String → String → Option String) (data salt : String)
    (algorithm : String) : Except String String :=
  jsHash digest (data ++ salt) algorithm

/-! ## SaltGenerator (assets/js/crypto/salt-generator.js) -/

namespace SaltGen

/-- this.minLength in the SaltGenerator constructor. -/
def minLength : Nat := 16

/-- this.maxLength in the SaltGenerator constructor. -/
def maxLength : Nat := 128

/-- Lowercase hex digit, as produced by Number.prototype.toString(16). -/
def hexChar (n : Nat) : Char :=
  if n < 10 then Char.ofNat (48 + n) else Char.ofNat (87 + n)

/-- byte.toString(16).padStart(2, '0') for a byte value (0..255): the high
nibble followed by the low nibble. -/
def byteToHex (b : Fin 256) : String :=
  ⟨[hexChar (b.val / 16), hexChar (b.val % 16)]⟩

/-- SaltGenerator.arrayToHex: map each byte to two padded hex digits and
join with the empty separator. -/
def arrayToHex (bytes : List (Fin 256)) : String :=
  (bytes.map byteToHex).foldl (· ++ ·) ""

/-- SaltGenerator.generate. The platform randomness source
crypto.getRandomValues is modelled as a stream of random bytes together with a
cursor counting how many bytes have been consumed so far; a successful call
returns the hex salt and the advanced cursor. The range check happens before
the Uint8Array is filled, so the error branch does not touch the stream. -/
def generate (randomValues : Nat → Fin 256) (consumed : Nat) (length : Nat) :
    Except String (String × Nat) :=
  if length < minLength ∨ maxLength < length then
    .error "Salt length must be between 16 and 128 bytes"
  else
    .ok (arrayToHex ((List.range length).map fun i => randomValues (consumed + i)),
         consumed + length)

end SaltGen

/-! ## Shared storage data model (both BiometricStorage variants) -/

/-- The observable content of an EnrollmentRecord. The generated
enrollmentId, the enrollment/update timestamps and the free-form
deviceInfo/templateSize metadata are environment- and clock-dependent and are
abstracted away (the claims compare records up to generated identifiers and
timestamps); the fields below are the data-carrying ones. -/
structure BioRecord where
  userId : String
  biometricType : String
  hash : String
  salt : String
  algorithm : String
  confidence : Rat
deriving DecidableEq

/-- The biometricData argument of storeEnrollment (the fields the record
constructor reads). -/
structure BioData where
  type : String
  hash : String
  salt : String
  algorithm : String
  confidence : Rat
deriving DecidableEq

/-- Record construction in storeEnrollment: biometricData.type || 'unknown',
algorithm || 'SHA-256', confidence || 1.0 (JS falsiness: the empty string and
0 fall back to the default). -/
def mkRecord (userId : String) (d : BioData) : BioRecord :=
  { userId := userId
    biometricType := if d.type = "" then "unknown" else d.type
    hash := d.hash
    salt := d.salt
    algorithm := if d.algorithm = "" then "SHA-256" else d.algorithm
    confidence := if d.confidence = 0 then 1 else d.confidence }

/-- A VerificationLogEntry, up to its timestamp/date fields. -/
structure LogEntry where
  userId : String
  success : Bool
deriving DecidableEq

/-- The log update in logVerificationAttempt: log.push(entry) followed by
if (log.length > 100) log = log.slice(-100). slice(-100) keeps the last 100
elements, i.e. drops length - 100 from the front. -/
def logStep (log : List α) (e : α) : List α :=
  let l := log ++ [e]
  if l.length > 100 then l.drop (l.length - 100) else l

/-- The updates argument of updateEnrollment. -/
structure UpdateData where
  hash : Option String
  salt : Option String
  confidence : Option Rat
deriving DecidableEq

/-- Field merging in updateEnrollment: if (updates.hash) record.hash = ...,
etc. An absent field or a falsy value (empty string, 0) leaves the stored
field unchanged. -/
def applyUpdates (r : BioRecord) (u : UpdateData) : BioRecord :=
  { r with
    hash := match u.hash with
      | some h => if h = "" then r.hash else h
      | none => r.hash
    salt := match u.salt with
      | some sa => if sa = "" then r.salt else sa
      | none => r.salt
    confidence := match u.confidence with
      | some c => if c = 0 then r.confidence else c
      | none => r.confidence }

/-- The summary object pushed by getAllEnrollments, up to enrollmentId and
enrollmentDate (generated id / timestamp). It carries no hash or salt field. -/
structure Summary where
  userId : String
  biometricType : String
  confidence : Rat
deriving DecidableEq

/-- Summary construction in getAllEnrollments. -/
def summarize (r : BioRecord) : Summary :=
  { userId := r.userId, biometricType := r.biometricType, confidence := r.confidence }

/-- The observable part of the result object of verifyBiometric. -/
structure VerifyResult where
  success : Bool
  verified : Bool
deriving DecidableEq

/-! ## Key-value backing (JS Map / localStorage), as an insertion-ordered
association list. Map.set and localStorage.setItem replace the value in place
when the key is present and append otherwise; get/getItem return the value of
the first (unique) matching key; delete/removeItem drop the key. -/

def mapGet : List (String × α) → String → Option α
  | [], _ => none
  | p :: ps, k => if p.1 = k then some p.2 else mapGet ps k

def mapSet : List (String × α) → String → α → List (String × α)
  | [], k, v => [(k, v)]
  | p :: ps, k, v => if p.1 = k then (k, v) :: ps else p :: mapSet ps k v

def mapDelete (s : List (String × α)) (k : String) : List (String × α) :=
  s.filter (fun p => p.1 ≠ k)

/-! ## BiometricStorage, in-memory Map variant (part_001)

All data lives in one Map (this.storage): enrollment records are stored
encrypted (base64-encoded JSON, decrypt restores the record) under the key
userId, and verification logs are stored as raw arrays under the key
userId + "_log". Operations that would throw a TypeError return none. -/

namespace MapStore

/-- A value held by this.storage: either an encrypted enrollment record (the
wrapper object produced by encrypt, which decrypt turns back into the record)
or a raw verification-log array. -/
inductive Val where
  | enc (r : BioRecord)
  | log (l : List LogEntry)
deriving DecidableEq

abbrev State := List (String × Val)

/-- BiometricStorage.retrieveEnrollment.
none: the call throws a TypeError (the slot holds a raw log array: decrypt
fails inside its try/catch and returns null, and reading record.userId then
dereferences null). some none: success:false, 'User not found'.
some (some r): success:true with the record's data. -/
def retrieveEnrollment (s : State) (userId : String) : Option (Option BioRecord) :=
  match mapGet s userId with
  | none => some none
  | some (.enc r) => some (some r)
  | some (.log _) => none

/-- BiometricStorage.logVerificationAttempt. Reads this.storage.get(logKey)
|| [], pushes the entry, caps at the last 100, stores back. none: the slot
holds an encrypted record object (a user literally named userId + "_log" was
enrolled), and log.push on a non-array throws. -/
def logVerificationAttempt (s : State) (userId : String) (success : Bool) :
    Option State :=
  match mapGet s (userId ++ "_log") with
  | some (.enc _) => none
  | some (.log l) =>
      some (mapSet s (userId ++ "_log") (.log (logStep l ⟨userId, success⟩)))
  | none =>
      some (mapSet s (userId ++ "_log") (.log (logStep ([] : List LogEntry) ⟨userId, success⟩)))

/-- BiometricStorage.verifyBiometric: retrieve, constant-time compare the
stored hash with the provided hash, log the attempt, and report the match.
A failed retrieve (unenrolled user) reports success:false/verified:false and
performs no logging. none: a TypeError escaped from retrieve or from the log
push. -/
def verifyBiometric (s : State) (userId providedHash : String) :
    Option (VerifyResult × State) :=
  match retrieveEnrollment s userId with
  | none => none
  | some none => some ({ success := false, verified := false }, s)
  | some (some r) =>
      let m := compareHashes r.hash providedHash
      (logVerificationAttempt s userId m).map fun s' =>
        ({ success := true, verified := m }, s')

/-- BiometricStorage.storeEnrollment: build the record and overwrite the slot.
The JS call also returns success:true with the generated enrollmentId and
timestamp (abstracted); the state is the interesting part. -/
def storeEnrollment (s : State) (userId : String) (d : BioData) : State :=
  mapSet s userId (.enc (mkRecord userId d))

/-- BiometricStorage.updateEnrollment. some (false, s): success:false,
'User not found'. some (true, s'): fields merged and the slot rewritten.
none: the retrieve threw. -/
def updateEnrollment (s : State) (userId : String) (u : UpdateData) :
    Option (Bool × State) :=
  match retrieveEnrollment s userId with
  | none => none
  | some none => some (false, s)
  | some (some r) => some (true, mapSet s userId (.enc (applyUpdates r u)))

/-- BiometricStorage.deleteEnrollment: existed := storage.has(userId), then
storage.delete(userId); returns deleted: existed. The log slot is not
touched. -/
def deleteEnrollment (s : State) (userId : String) : Bool × State :=
  ((mapGet s userId).isSome, mapDelete s userId)

/-- BiometricStorage.getAllEnrollments iterates over every entry of
this.storage — including the log slots. For a log slot decrypt returns null
and reading record.userId throws a TypeError that nothing catches, so the
whole listing fails (none) as soon as the iteration meets a log array. -/
def getAllEnrollments : State → Option (List Summary)
  | [] => some []
  | (_, .log _) :: _ => none
  | (_, .enc r) :: rest => (getAllEnrollments rest).map (summarize r :: ·)

/-- BiometricStorage.getVerificationHistory: this.storage.get(logKey) || [].
The slot can in principle hold an encrypted record (a user named
userId + "_log"), which the JS happily returns; hence the Val result. -/
def getVerificationHistory (s : State) (userId : String) : Val :=
  (mapGet s (userId ++ "_log")).getD (.log [])

/-- The verification log of a user as a list (empty when the slot is absent
or holds a non-array value). -/
def historyList (s : State) (userId : String) : List LogEntry :=
  match mapGet s (userId ++ "_log") with
  | some (.log l) => l
  | _ => []

end MapStore

/-- key.startsWith(p), computed on the character lists (String.startsWith
itself does not reduce inside the kernel). -/
def strStartsWith (s p : String) : Bool :=
  s.data.take p.data.length == p.data

/-! ## BiometricStorage, localStorage variant (part_002)

Records are stored JSON-encoded under "biometric-user-" + userId and logs
under userId + "_log", in the same localStorage namespace. JSON round-trips
the stored structures faithfully, so values are modelled in parsed form. -/

namespace LocalStore

/-- A localStorage value written by this variant: a JSON-encoded enrollment
record or a JSON-encoded log array. -/
inductive Val where
  | record (r : BioRecord)
  | log (l : List LogEntry)
deriving DecidableEq

abbrev State := List (String × Val)

/-- The record key: biometric-user-<userId>. -/
def userKey (userId : String) : String := "biometric-user-" ++ userId

/-- The log key: <userId>_log. -/
def logKey (userId : String) : String := userId ++ "_log"

/-- Result of retrieveEnrollment. junk: the slot held a log array (possible
when some user's log key equals this user's record key); JSON.parse yields an
array and every field read on it gives undefined, so the JS still reports
success:true but with undefined data fields. -/
inductive Retrieved where
  | notFound
  | found (r : BioRecord)
  | junk
deriving DecidableEq

/-- BiometricStorage.retrieveEnrollment (localStorage). The corrupt-JSON
branch (success:false, 'Corrupt enrollment data') is unreachable here because
the model only ever stores values this variant wrote itself. -/
def retrieveEnrollment (s : State) (userId : String) : Retrieved :=
  match mapGet s (userKey userId) with
  | none => .notFound
  | some (.record r) => .found r
  | some (.log _) => .junk

/-- BiometricStorage.logVerificationAttempt (localStorage). none: the log
slot holds a JSON-encoded record object; JSON.parse gives a non-array and
log.push throws. -/
def logVerificationAttempt (s : State) (userId : String) (success : Bool) :
    Option State :=
  match mapGet s (logKey userId) with
  | some (.record _) => none
  | some (.log l) =>
      some (mapSet s (logKey userId) (.log (logStep l ⟨userId, success⟩)))
  | none =>
      some (mapSet s (logKey userId) (.log (logStep ([] : List LogEntry) ⟨userId, success⟩)))

/-- BiometricStorage.verifyBiometric (localStorage). In the junk case the
stored hash read is undefined, compareHashes(undefined, h) takes the falsy
guard and yields false, and the attempt is still logged. -/
def verifyBiometric (s : State) (userId providedHash : String) :
    Option (VerifyResult × State) :=
  match retrieveEnrollment s userId with
  | .notFound => some ({ success := false, verified := false }, s)
  | .found r =>
      let m := compareHashes r.hash providedHash
      (logVerificationAttempt s userId m).map fun s' =>
        ({ success := true, verified := m }, s')
  | .junk =>
      (logVerificationAttempt s userId false).map fun s' =>
        ({ success := true, verified := false }, s')

/-- BiometricStorage.storeEnrollment (localStorage). -/
def storeEnrollment (s : State) (userId : String) (d : BioData) : State :=
  mapSet s (userKey userId) (.record (mkRecord userId d))

/-- BiometricStorage.updateEnrollment (localStorage). none: the junk case,
where record.metadata is undefined and setting metadata.lastUpdated throws. -/
def updateEnrollment (s : State) (userId : String) (u : UpdateData) :
    Option (Bool × State) :=
  match retrieveEnrollment s userId with
  | .notFound => some (false, s)
  | .junk => none
  | .found r => some (true, mapSet s (userKey userId) (.record (applyUpdates r u)))

/-- BiometricStorage.deleteEnrollment (localStorage): removes both the record
key and the log key, and reports whether the record key existed. -/
def deleteEnrollment (s : State) (userId : String) : Bool × State :=
  ((mapGet s (userKey userId)).isSome,
   mapDelete (mapDelete s (userKey userId)) (logKey userId))

/-- BiometricStorage.getAllEnrollments (localStorage): iterate over all keys,
keep those starting with biometric-user-, and JSON-parse each; a slot whose
parsed value is not a record (a log array under a colliding key) makes the
field reads throw inside the per-record try/catch and is skipped. The
iteration order of localStorage.key(i) is implementation-defined; insertion
order is used here. -/
def getAllEnrollments : State → List Summary
  | [] => []
  | (k, v) :: rest =>
      if strStartsWith k "biometric-user-" then
        match v with
        | .record r => summarize r :: getAllEnrollments rest
        | .log _ => getAllEnrollments rest
      else getAllEnrollments rest

/-- BiometricStorage.getVerificationHistory (localStorage):
JSON.parse(getItem(logKey)) || []. -/
def getVerificationHistory (s : State) (userId : String) : Val :=
  (mapGet s (logKey userId)).getD (.log [])

/-- The verification log of a user as a list. -/
def historyList (s : State) (userId : String) : List LogEntry :=
  match mapGet s (logKey userId) with
  | some (.log l) => l
  | _ => []

end LocalStore

/-! ## Enrollment / verification flows (EnrollmentSimulation.enrollFingerprint,
VerificationSimulation.verifyFingerprint), over the Map storage variant. -/

/-- simulateBiometricExtraction in both simulation classes: the extraction
stub always returns this constant string. -/
def template : String := "demo-static-biometric-template"

/-- EnrollmentSimulation.enrollFingerprint after a successful capture:
generate a 32-byte salt, hash template + salt with SHA-256, store the record
(type 'fingerprint', algorithm 'SHA-256', confidence 0.98). none: the run
aborted in the catch block (success:false) before anything was stored; on
success the produced (hash, salt) and the new storage state are returned. -/
def enrollFingerprint (digest : String → String → Option String)
    (randomValues : Nat → Fin 256) (s : MapStore.State) (username : String) :
    Option ((String × String) × MapStore.State) :=
  match SaltGen.generate randomValues 0 32 with
  | .error _ => none
  | .ok (salt, _) =>
    match hashWithSalt digest template salt "SHA-256" with
    | .error _ => none
    | .ok h =>
      some ((h, salt),
        MapStore.storeEnrollment s username
          { type := "fingerprint", hash := h, salt := salt,
            algorithm := "SHA-256", confidence := (49 : Rat)/50 })

/-- VerificationSimulation.verifyFingerprint after a successful capture, with
the extracted template as a parameter (the stub itself always yields the
constant template). Retrieve the enrollment, recompute the hash from the
extracted template and the stored salt, compare, let the storage log the
attempt, and report verified: match. Any exception along the way (user not
enrolled, hashing failure, a TypeError escaping the storage) lands in the
catch block, which reports success:false/verified:false; throws happen before
any mutation, so the state is unchanged there. -/
def verifyFingerprintWith (digest : String → String → Option String)
    (tpl : String) (s : MapStore.State) (username : String) :
    VerifyResult × MapStore.State :=
  match MapStore.retrieveEnrollment s username with
  | none => ({ success := false, verified := false }, s)
  | some none => ({ success := false, verified := false }, s)
  | some (some r) =>
    match hashWithSalt digest tpl r.salt "SHA-256" with
    | .error _ => ({ success := false, verified := false }, s)
    | .ok computed =>
      let m := compareHashes computed r.hash
      match MapStore.verifyBiometric s username computed with
      | none => ({ success := false, verified := false }, s)
      | some (_, s') => ({ success := true, verified := m }, s')

/-- VerificationSimulation.verifyFingerprint as shipped: the extraction stub
yields the constant template. -/
def verifyFingerprint (digest : String → String → Option String)
    (s : MapStore.State) (username : String) : VerifyResult × MapStore.State :=
  verifyFingerprintWith digest template s username

/-! ## Storage interface operations and observations (for the equivalence of
the two variants). deleteEnrollment and getAllEnrollments are not in this
operation list: they demonstrably diverge between the variants. -/

/-- A call against the storage interface. -/
inductive Op where
  | store (userId : String) (d : BioData)
  | retrieve (userId : String)
  | verify (userId providedHash : String)
  | update (userId : String) (u : UpdateData)
  | history (userId : String)
deriving DecidableEq

/-- The userId an operation addresses. -/
def Op.userId : Op → String
  | .store u _ => u
  | .retrieve u => u
  | .verify u _ => u
  | .update u _ => u
  | .history u => u

/-- What a caller observes from one storage call, up to generated identifiers
and timestamps. junk records the localStorage variant answering a retrieve
from a polluted slot with undefined fields (unreachable for the userIds the
equivalence theorem admits). -/
inductive Obs where
  | stored
  | retrieved (r : Option BioRecord)
  | retrievedJunk
  | verifyOutcome (v : VerifyResult)
  | updated (success : Bool)
  | historyIs (l : List LogEntry)
deriving DecidableEq

/-- One interface call against the Map variant (none: the call threw). -/
def MapStore.runOp (s : MapStore.State) : Op → Option (Obs × MapStore.State)
  | .store uid d => some (.stored, MapStore.storeEnrollment s uid d)
  | .retrieve uid =>
      (MapStore.retrieveEnrollment s uid).map fun r => (.retrieved r, s)
  | .verify uid ph =>
      (MapStore.verifyBiometric s uid ph).map fun p => (.verifyOutcome p.1, p.2)
  | .update uid u =>
      (MapStore.updateEnrollment s uid u).map fun p => (.updated p.1, p.2)
  | .history uid =>
      match MapStore.getVerificationHistory s uid with
      | .log l => some (.historyIs l, s)
      | .enc _ => some (.retrievedJunk, s)

/-- One interface call against the localStorage variant. -/
def LocalStore.runOp (s : LocalStore.State) : Op → Option (Obs × LocalStore.State)
  | .store uid d => some (.stored, LocalStore.storeEnrollment s uid d)
  | .retrieve uid =>
      match LocalStore.retrieveEnrollment s uid with
      | .notFound => some (.retrieved none, s)
      | .found r => some (.retrieved (some r), s)
      | .junk => some (.retrievedJunk, s)
  | .verify uid ph =>
      (LocalStore.verifyBiometric s uid ph).map fun p => (.verifyOutcome p.1, p.2)
  | .update uid u =>
      (LocalStore.updateEnrollment s uid u).map fun p => (.updated p.1, p.2)
  | .history uid =>
      match LocalStore.getVerificationHistory s uid with
      | .log l => some (.historyIs l, s)
      | .record _ => some (.retrievedJunk, s)

/-- Run a sequence of interface calls against the Map variant, collecting the
observations; none as soon as one call throws. -/
def MapStore.runOps (s : MapStore.State) : List Op → Option (List Obs × MapStore.State)
  | [] => some ([], s)
  | op :: ops =>
      match MapStore.runOp s op with
      | none => none
      | some (o, s') =>
          (MapStore.runOps s' ops).map fun p => (o :: p.1, p.2)

/-- Run a sequence of interface calls against the localStorage variant. -/
def LocalStore.runOps (s : LocalStore.State) : List Op → Option (List Obs × LocalStore.State)
  | [] => some ([], s)
  | op :: ops =>
      match LocalStore.runOp s op with
      | none => none
      | some (o, s') =>
          (LocalStore.runOps s' ops).map fun p => (o :: p.1, p.2)

/-- userIds containing no underscore cannot collide with any log key
(every log key contains the underscore of its "_log" suffix). -/
def underscoreFree (userId : String) : Prop := '_' ∉ userId.data

instance : DecidablePred underscoreFree := fun uid =>
  decidable_of_iff ('_' ∉ uid.data) Iff.rfl

/-- Coupling between the two variants' states: for every underscore-free
userId the record slots hold the same record (or are both absent) and the log
slots hold the same log (or are both absent). -/
def StoreRel (s1 : MapStore.State) (s2 : LocalStore.State) : Prop :=
  (∀ uid : String, underscoreFree uid →
    ((mapGet s1 uid = none ∧ mapGet s2 (LocalStore.userKey uid) = none) ∨
     (∃ r, mapGet s1 uid = some (.enc r) ∧
           mapGet s2 (LocalStore.userKey uid) = some (.record r)))) ∧
  (∀ uid : String, underscoreFree uid →
    ((mapGet s1 (uid ++ "_log") = none ∧ mapGet s2 (LocalStore.logKey uid) = none) ∨
     (∃ l, mapGet s1 (uid ++ "_log") = some (.log l) ∧
           mapGet s2 (LocalStore.logKey uid) = some (.log l))))

/-! ## Slot well-formedness (used to state the amended claims around the
shared key namespace). -/

/-- In the Map variant, the record slot of userId does not hold a raw log
array (it is absent or an encrypted record). -/
def MapStore.userSlotOk (s : MapStore.State) (userId : String) : Bool :=
  match mapGet s userId with
  | some (.log _) => false
  | _ => true

/-- In the Map variant, the log slot of userId does not hold an encrypted
record (it is absent or a log array). -/
def MapStore.logSlotOk (s : MapStore.State) (userId : String) : Bool :=
  match mapGet s (userId ++ "_log") with
  | some (.enc _) => false
  | _ => true

/-- In the localStorage variant, the record slot of userId does not hold a
log array. -/
def LocalStore.userSlotOk (s : LocalStore.State) (userId : String) : Bool :=
  match mapGet s (LocalStore.userKey userId) with
  | some (.log _) => false
  | _ => true

/-- In the localStorage variant, the log slot of userId does not hold a
record. -/
def LocalStore.logSlotOk (s : LocalStore.State) (userId : String) : Bool :=
  match mapGet s (LocalStore.logKey userId) with
  | some (.record _) => false
  | _ => true

/-- Concrete enrollment payload used by the concrete evaluations below. -/
def sampleData : BioData :=
  { type := "fingerprint", hash := "abc", salt := "ffff",
    algorithm := "SHA-256", confidence := 1 }

/-! ## Helper lemmas -/

theorem nat_or_eq_zero (a b : Nat) : a ||| b = 0 ↔ a = 0 ∧ b = 0 := by
  constructor
  · intro h
    constructor
    · apply Nat.eq_of_testBit_eq
      intro i
      have hc := congrArg (Nat.testBit · i) h
      simp only [Nat.testBit_or, Nat.zero_testBit, Bool.or_eq_false_iff] at hc
      simp [hc.1]
    · apply Nat.eq_of_testBit_eq
      intro i
      have hc := congrArg (Nat.testBit · i) h
      simp only [Nat.testBit_or, Nat.zero_testBit, Bool.or_eq_false_iff] at hc
      simp [hc.2]
  · rintro ⟨rfl, rfl⟩
    rfl

theorem char_toNat_inj {a b : Char} (h : a.toNat = b.toNat) : a = b := by
  have hv : a.val = b.val := by
    apply UInt32.ext
    exact h
  exact Char.ext hv

theorem compareLoop_snd (ps : List (Char × Char)) (acc steps : Nat) :
    (compareLoop acc steps ps).2 = steps + ps.length := by
  induction ps generalizing acc steps with
  | nil => simp [compareLoop]
  | cons p ps ih =>
    simp only [compareLoop, ih, List.length_cons]
    omega

theorem compareLoop_fst_eq_zero (ps : List (Char × Char)) (acc steps : Nat) :
    (compareLoop acc steps ps).1 = 0 ↔ acc = 0 ∧ ∀ p ∈ ps, p.1 = p.2 := by
  induction ps generalizing acc steps with
  | nil => simp [compareLoop]
  | cons p ps ih =>
    simp only [compareLoop, ih, nat_or_eq_zero, List.mem_cons]
    constructor
    · rintro ⟨⟨ha, hx⟩, hrest⟩
      refine ⟨ha, fun q hq => ?_⟩
      rcases hq with hq | hq
      · subst hq
        exact char_toNat_inj (Nat.xor_eq_zero.mp hx)
      · exact hrest q hq
    · rintro ⟨ha, hall⟩
      have hp := hall p (Or.inl rfl)
      refine ⟨⟨ha, by simp [hp]⟩, fun q hq => hall q (Or.inr hq)⟩

theorem zip_forall_eq {l1 l2 : List Char} (h : l1.length = l2.length) :
    (∀ p ∈ l1.zip l2, p.1 = p.2) ↔ l1 = l2 := by
  induction l1 generalizing l2 with
  | nil =>
    cases l2 with
    | nil => simp
    | cons b l2 => simp at h
  | cons a l1 ih =>
    cases l2 with
    | nil => simp at h
    | cons b l2 =>
      simp only [List.length_cons, Nat.add_right_cancel_iff] at h
      simp only [List.zip_cons_cons, List.mem_cons, List.cons.injEq]
      constructor
      · intro hall
        refine ⟨hall (a, b) (Or.inl rfl), (ih h).mp fun q hq => hall q (Or.inr hq)⟩
      · rintro ⟨rfl, rfl⟩
        intro q hq
        rcases hq with hq | hq
        · subst hq; rfl
        · exact ((ih h).mpr rfl) q hq

theorem string_length_data (s : String) : s.length = s.data.length := rfl

theorem compareHashes_spec (h1 h2 : String) :
    compareHashes h1 h2 = true ↔ (h1 = h2 ∧ h1 ≠ "") := by
  unfold compareHashes
  by_cases he : h1 = "" ∨ h2 = ""
  · simp only [he, if_true]
    constructor
    · intro hfalse
      cases hfalse
    · rintro ⟨rfl, hne⟩
      rcases he with he | he
      · exact absurd he hne
      · exact absurd he hne
  · push_neg at he
    obtain ⟨he1, he2⟩ := he
    simp only [he1, he2, or_self, if_false]
    by_cases hl : h1.length = h2.length
    · simp only [hl, ne_eq, not_true_eq_false, if_false, beq_iff_eq]
      rw [compareLoop_fst_eq_zero]
      have hdl : h1.data.length = h2.data.length := by
        rw [← string_length_data, ← string_length_data, hl]
      rw [zip_forall_eq hdl]
      constructor
      · rintro ⟨-, hdata⟩
        exact ⟨String.ext hdata, he1⟩
      · rintro ⟨rfl, -⟩
        exact ⟨rfl, rfl⟩
    · simp only [ne_eq, hl, not_false_eq_true, if_true]
      constructor
      · intro hfalse
        cases hfalse
      · rintro ⟨rfl, -⟩
        exact absurd rfl hl

theorem compareHashes_self {h : String} (hne : h ≠ "") : compareHashes h h = true :=
  (compareHashes_spec h h).mpr ⟨rfl, hne⟩

theorem compareHashes_ne_false {h1 h2 : String} (h : h1 ≠ h2) :
    compareHashes h1 h2 = false := by
  cases hc : compareHashes h1 h2 with
  | false => rfl
  | true => exact absurd ((compareHashes_spec h1 h2).mp hc).1 h

/-! ## Claims about HashGenerator -/

/-- C3 (amended): compareHashes decides string equality except on the empty
string: it returns true exactly when the two strings are equal and nonempty.
In particular compareHashes h h is true for every nonempty h, and
compareHashes h1 h2 is false whenever h1 and h2 differ (including when their
lengths differ) — but the JS falsiness guard makes compareHashes of two empty
strings false, not true. -/
theorem compareHashes_eq_true_iff (h1 h2 : String) :
    compareHashes h1 h2 = true ↔ (h1 = h2 ∧ h1 ≠ "") :=
  compareHashes_spec h1 h2

/-- C3 counterexample: the claim states compareHashes(h, h) is true for every
string h, but on the empty string the JS falsiness guard returns false. -/
theorem compareHashes_empty_empty_false : compareHashes "" "" = false := by
  decide

/-- C10: compareHashes is constant-time in the position of the first
mismatch: whenever the two inputs have equal length, the loop examines
exactly length many character positions — independent of the inputs'
contents — and only an unequal-length pair short-circuits (0 positions). -/
theorem compareHashes_constant_time (h1 h2 : String) :
    (h1.length = h2.length → compareHashesSteps h1 h2 = h1.length) ∧
    (h1.length ≠ h2.length → compareHashesSteps h1 h2 = 0) := by
  constructor
  · intro hl
    unfold compareHashesSteps
    by_cases he : h1 = "" ∨ h2 = ""
    · rw [if_pos he]
      have h0 : h1.length = 0 := by
        rcases he with rfl | rfl
        · rfl
        · simpa using hl
      omega
    · rw [if_neg he, if_neg (by simp [hl])]
      rw [compareLoop_snd, List.length_zip]
      rw [string_length_data, string_length_data] at hl
      rw [string_length_data]
      omega
  · intro hl
    unfold compareHashesSteps
    by_cases he : h1 = "" ∨ h2 = ""
    · simp [he]
    · simp [he, hl]

/-- C10 witness: a concrete equal-length pair with an early first mismatch
examines both positions; a concrete unequal-length pair examines none. -/
theorem compareHashes_constant_time_witness :
    compareHashesSteps "ab" "cb" = "ab".length ∧ compareHashesSteps "ab" "c" = 0 :=
  ⟨(compareHashes_constant_time "ab" "cb").1 (by decide),
   (compareHashes_constant_time "ab" "c").2 (by decide)⟩

/-- C2: hashWithSalt is exactly hash applied to the plain string
concatenation data ++ salt (salt appended after the data; no HMAC mixing, no
iteration), for every data, salt and algorithm and every digest primitive. -/
theorem hashWithSalt_eq_hash_concat (digest : String → String → Option String)
    (data salt algorithm : String) :
    hashWithSalt digest data salt algorithm = jsHash digest (data ++ salt) algorithm :=
  rfl

/-! ## Claims about SaltGenerator -/

theorem hexChar_mem (n : Nat) (h : n < 16) :
    SaltGen.hexChar n ∈ "0123456789abcdef".data := by
  interval_cases n <;> decide

theorem foldl_append_data (l : List String) (acc : String) :
    (l.foldl (· ++ ·) acc).data = acc.data ++ (l.map String.data).flatten := by
  induction l generalizing acc with
  | nil => simp
  | cons s l ih =>
    simp only [List.foldl_cons, ih, String.data_append, List.map_cons, List.flatten_cons]
    simp [List.append_assoc]

theorem arrayToHex_data (bytes : List (Fin 256)) :
    (SaltGen.arrayToHex bytes).data =
      (bytes.map fun b => [SaltGen.hexChar (b.val / 16), SaltGen.hexChar (b.val % 16)]).flatten := by
  unfold SaltGen.arrayToHex
  rw [foldl_append_data]
  have hfun : (String.data ∘ SaltGen.byteToHex) =
      fun b : Fin 256 => [SaltGen.hexChar (b.val / 16), SaltGen.hexChar (b.val % 16)] := by
    funext b
    rfl
  simp only [List.map_map, hfun, List.nil_append]

theorem arrayToHex_length (bytes : List (Fin 256)) :
    (SaltGen.arrayToHex bytes).length = 2 * bytes.length := by
  rw [string_length_data, arrayToHex_data]
  induction bytes with
  | nil => rfl
  | cons b bs ih =>
    simp only [List.map_cons, List.flatten_cons, List.length_append, List.length_cons,
      List.length_nil] at ih ⊢
    omega

theorem arrayToHex_chars (bytes : List (Fin 256)) :
    ∀ c ∈ (SaltGen.arrayToHex bytes).data, c ∈ "0123456789abcdef".data := by
  rw [arrayToHex_data]
  intro c hc
  rw [List.mem_flatten] at hc
  obtain ⟨l, hl, hcl⟩ := hc
  rw [List.mem_map] at hl
  obtain ⟨b, -, rfl⟩ := hl
  have hb : b.val < 256 := b.isLt
  simp only [List.mem_cons, List.mem_singleton] at hcl
  rcases hcl with rfl | rfl | hfalse
  · exact hexChar_mem _ (Nat.div_lt_of_lt_mul (by omega))
  · exact hexChar_mem _ (Nat.mod_lt _ (by omega))
  · cases hfalse

/-- C4: SaltGenerator.generate returns, for every lengthBytes between 16 and
128 inclusive, a lowercase-hex string of exactly 2 × lengthBytes characters
(consuming lengthBytes bytes of randomness); for every lengthBytes outside
that range it fails with the InvalidParameter error before any randomness is
drawn — the result is the error and does not depend on the random stream at
all. -/
theorem saltGenerator_generate_contract (randomValues : Nat → Fin 256)
    (consumed lengthBytes : Nat) :
    (SaltGen.minLength ≤ lengthBytes ∧ lengthBytes ≤ SaltGen.maxLength →
      ∃ s : String,
        SaltGen.generate randomValues consumed lengthBytes = .ok (s, consumed + lengthBytes) ∧
        s.length = 2 * lengthBytes ∧ s ≠ "" ∧
        ∀ c ∈ s.data, c ∈ "0123456789abcdef".data) ∧
    (lengthBytes < SaltGen.minLength ∨ SaltGen.maxLength < lengthBytes →
      SaltGen.generate randomValues consumed lengthBytes =
        .error "Salt length must be between 16 and 128 bytes" ∧
      ∀ rv2 : Nat → Fin 256,
        SaltGen.generate rv2 consumed lengthBytes =
          SaltGen.generate randomValues consumed lengthBytes) := by
  constructor
  · rintro ⟨hmin, hmax⟩
    have hcond : ¬(lengthBytes < SaltGen.minLength ∨ SaltGen.maxLength < lengthBytes) := by
      simp only [SaltGen.minLength, SaltGen.maxLength] at *
      omega
    refine ⟨SaltGen.arrayToHex ((List.range lengthBytes).map fun i => randomValues (consumed + i)),
      ?_, ?_, ?_, ?_⟩
    · unfold SaltGen.generate
      rw [if_neg hcond]
    · rw [arrayToHex_length, List.length_map, List.length_range]
    · intro hempty
      have h0 := arrayToHex_length ((List.range lengthBytes).map fun i => randomValues (consumed + i))
      rw [hempty] at h0
      simp only [List.length_map, List.length_range] at h0
      have hz : (0 : Nat) = 2 * lengthBytes := h0
      simp only [SaltGen.minLength] at hmin
      omega
    · exact arrayToHex_chars _
  · intro hcond
    constructor
    · unfold SaltGen.generate
      rw [if_pos hcond]
    · intro rv2
      unfold SaltGen.generate
      rw [if_pos hcond, if_pos hcond]

/-- C4 witness: lengthBytes 32 succeeds with a 64-character hex string, while
lengthBytes 15 fails with the range error independently of the stream. -/
theorem saltGenerator_generate_contract_witness :
    (∃ s : String,
        SaltGen.generate (fun _ => (0 : Fin 256)) 0 32 = .ok (s, 0 + 32) ∧
        s.length = 2 * 32 ∧ s ≠ "" ∧
        ∀ c ∈ s.data, c ∈ "0123456789abcdef".data) ∧
    (SaltGen.generate (fun _ => (0 : Fin 256)) 0 15 =
        .error "Salt length must be between 16 and 128 bytes" ∧
      ∀ rv2 : Nat → Fin 256,
        SaltGen.generate rv2 0 15 = SaltGen.generate (fun _ => (0 : Fin 256)) 0 15) :=
  ⟨(saltGenerator_generate_contract (fun _ => (0 : Fin 256)) 0 32).1 (by decide),
   (saltGenerator_generate_contract (fun _ => (0 : Fin 256)) 0 15).2 (by decide)⟩

/-! ## Claims about the verification log cap -/

theorem logStep_eq (l : List α) (e : α) :
    logStep l e = (l ++ [e]).drop ((l ++ [e]).length - 100) := by
  simp only [logStep]
  by_cases hl : (l ++ [e]).length > 100
  · rw [if_pos hl]
  · rw [if_neg hl]
    have h0 : (l ++ [e]).length - 100 = 0 := by omega
    rw [h0, List.drop_zero]

theorem logStep_length_le (l : List α) (e : α) : (logStep l e).length ≤ 100 := by
  rw [logStep_eq, List.length_drop]
  omega

theorem drop100_absorb (x es : List α) :
    ((x.drop (x.length - 100)) ++ es).drop (((x.drop (x.length - 100)) ++ es).length - 100)
      = (x ++ es).drop ((x ++ es).length - 100) := by
  have h1 : x.drop (x.length - 100) ++ es = (x ++ es).drop (x.length - 100) :=
    (List.drop_append_of_le_length (by omega)).symm
  rw [h1, List.drop_drop, List.length_drop, List.length_append]
  exact congrArg (fun n => List.drop n (x ++ es)) (by omega)

theorem foldl_logStep (es : List α) (l : List α) (h : l.length ≤ 100) :
    List.foldl logStep l es = (l ++ es).drop ((l ++ es).length - 100) := by
  induction es generalizing l with
  | nil =>
    simp only [List.foldl_nil, List.append_nil]
    have h0 : l.length - 100 = 0 := by omega
    rw [h0, List.drop_zero]
  | cons e es ih =>
    rw [List.foldl_cons, ih (logStep l e) (logStep_length_le l e), logStep_eq,
      drop100_absorb]
    simp

/-- C5: verification-log cap invariant. Folding the log update of
logVerificationAttempt over any sequence of entries leaves exactly the most
recent 100 of them, in order (so the log length never exceeds 100, the
oldest entries are dropped first, and the newest entry sits last); 150
attempts leave exactly the last 100. -/
theorem verification_log_cap (es : List LogEntry) :
    List.foldl logStep [] es = es.drop (es.length - 100) ∧
    (List.foldl logStep [] es).length ≤ 100 ∧
    (es.length = 150 → List.foldl logStep [] es = es.drop 50) := by
  have h := foldl_logStep es [] (by simp)
  simp only [List.nil_append] at h
  refine ⟨h, ?_, ?_⟩
  · rw [h, List.length_drop]
    omega
  · intro h150
    rw [h, h150]

/-- C5 witness: 150 concrete attempts leave exactly the last 100. -/
theorem verification_log_cap_witness :
    List.foldl logStep ([] : List LogEntry) (List.replicate 150 ⟨"alice", true⟩) =
      List.replicate 100 (⟨"alice", true⟩ : LogEntry) := by
  have h := (verification_log_cap (List.replicate 150 ⟨"alice", true⟩)).2.2 (by simp)
  rw [h, List.drop_replicate]

/-! ## Lemmas about the key-value backing -/

theorem mapGet_set_self (s : List (String × α)) (k : String) (v : α) :
    mapGet (mapSet s k v) k = some v := by
  induction s with
  | nil => simp [mapSet, mapGet]
  | cons p ps ih =>
    by_cases h : p.1 = k
    · simp [mapSet, h, mapGet]
    · simp [mapSet, h, mapGet, ih]

theorem mapGet_set_ne (s : List (String × α)) (k k' : String) (v : α) (h : k' ≠ k) :
    mapGet (mapSet s k v) k' = mapGet s k' := by
  have hks : ¬ k = k' := fun hk => h hk.symm
  induction s with
  | nil => simp [mapSet, mapGet, hks]
  | cons p ps ih =>
    by_cases hp : p.1 = k
    · simp [mapSet, hp, mapGet, hks]
    · by_cases hp' : p.1 = k'
      · simp [mapSet, hp, mapGet, hp', h, hks]
      · simp [mapSet, hp, mapGet, hp', ih]

theorem mapGet_delete_self (s : List (String × α)) (k : String) :
    mapGet (mapDelete s k) k = none := by
  induction s with
  | nil => rfl
  | cons p ps ih =>
    by_cases hp : p.1 = k
    · simpa [mapDelete, hp] using ih
    · simpa [mapDelete, hp, mapGet] using ih

theorem mapGet_delete_ne (s : List (String × α)) (k k' : String) (h : k' ≠ k) :
    mapGet (mapDelete s k) k' = mapGet s k' := by
  have hks : ¬ k = k' := fun hk => h hk.symm
  induction s with
  | nil => rfl
  | cons p ps ih =>
    by_cases hp : p.1 = k
    · have hp' : ¬ p.1 = k' := by
        rw [hp]
        exact hks
      simp [mapDelete, hp, mapGet, hp', h, hks] at ih ⊢
      exact ih
    · by_cases hp' : p.1 = k'
      · simp [mapDelete, hp, mapGet, hp', h, hks]
      · simp [mapDelete, hp, mapGet, hp'] at ih ⊢
        exact ih

theorem string_length_append (s t : String) :
    (s ++ t).length = s.length + t.length := by
  rw [string_length_data, string_length_data, string_length_data,
    String.data_append, List.length_append]

theorem append_log_ne (uid : String) : uid ++ "_log" ≠ uid := by
  intro h
  have hl := congrArg String.length h
  rw [string_length_append] at hl
  have h4 : ("_log" : String).length = 4 := rfl
  omega

theorem userKey_ne_logKey (uid : String) :
    LocalStore.userKey uid ≠ LocalStore.logKey uid := by
  intro h
  have hl := congrArg String.length h
  rw [LocalStore.userKey, LocalStore.logKey, string_length_append,
    string_length_append] at hl
  have h15 : ("biometric-user-" : String).length = 15 := rfl
  have h4 : ("_log" : String).length = 4 := rfl
  omega

/-! ## Claims about deleteEnrollment and getAllEnrollments -/

/-- C7 (amended): deleteEnrollment destroys the enrollment record for every
userId — a subsequent retrieveEnrollment reports User not found — is
idempotent (deleted reports whether the record existed, so deleting a missing
userId gives deleted:false and a second delete in a row gives deleted:false
after a first deleted:true), and never errors. The localStorage variant also
clears that user's verification log; the Map variant leaves the log slot
untouched, so the log survives the delete there. -/
theorem deleteEnrollment_contract (s1 : MapStore.State) (s2 : LocalStore.State)
    (uid : String) :
    ((MapStore.deleteEnrollment s1 uid).1 = (mapGet s1 uid).isSome ∧
     MapStore.retrieveEnrollment (MapStore.deleteEnrollment s1 uid).2 uid = some none ∧
     (MapStore.deleteEnrollment (MapStore.deleteEnrollment s1 uid).2 uid).1 = false ∧
     MapStore.getVerificationHistory (MapStore.deleteEnrollment s1 uid).2 uid =
       MapStore.getVerificationHistory s1 uid) ∧
    ((LocalStore.deleteEnrollment s2 uid).1 = (mapGet s2 (LocalStore.userKey uid)).isSome ∧
     LocalStore.retrieveEnrollment (LocalStore.deleteEnrollment s2 uid).2 uid = .notFound ∧
     (LocalStore.deleteEnrollment (LocalStore.deleteEnrollment s2 uid).2 uid).1 = false ∧
     LocalStore.getVerificationHistory (LocalStore.deleteEnrollment s2 uid).2 uid = .log []) := by
  refine ⟨⟨rfl, ?_, ?_, ?_⟩, ⟨rfl, ?_, ?_, ?_⟩⟩
  · unfold MapStore.retrieveEnrollment MapStore.deleteEnrollment
    rw [mapGet_delete_self]
  · unfold MapStore.deleteEnrollment
    rw [mapGet_delete_self]
    rfl
  · unfold MapStore.getVerificationHistory MapStore.deleteEnrollment
    rw [mapGet_delete_ne _ _ _ (append_log_ne uid)]
  · unfold LocalStore.retrieveEnrollment LocalStore.deleteEnrollment
    rw [mapGet_delete_ne _ _ _ (userKey_ne_logKey uid), mapGet_delete_self]
  · unfold LocalStore.deleteEnrollment
    rw [mapGet_delete_ne _ _ _ (userKey_ne_logKey uid), mapGet_delete_self]
    rfl
  · unfold LocalStore.getVerificationHistory LocalStore.deleteEnrollment
    rw [mapGet_delete_self]
    rfl

/-- C7 counterexample: in the Map variant, after enrolling bob and one
verification attempt (which logs an entry), deleting bob leaves the
verification log nonempty — the claim states the delete also clears the log
(a subsequent getVerificationHistory would be empty). -/
theorem deleteEnrollment_keeps_log_counterexample :
    (MapStore.verifyBiometric (MapStore.storeEnrollment [] "bob" sampleData) "bob" "zzz").map
        (fun p => MapStore.getVerificationHistory (MapStore.deleteEnrollment p.2 "bob").2 "bob")
      = some (.log [⟨"bob", false⟩]) := by
  decide

/-- C8: evaluation at the failing input. After enrolling alice and one
verification attempt for alice, the Map variant's getAllEnrollments meets
alice's log array inside this.storage, decrypt returns null, and reading
record.userId throws an uncaught TypeError — the listing fails (none) instead
of skipping the unparseable entry. The localStorage variant on the same
history filters keys by the biometric-user- marker and returns exactly
alice's summary, as the claim demands. -/
theorem getAllEnrollments_after_logging :
    (MapStore.verifyBiometric (MapStore.storeEnrollment [] "alice" sampleData) "alice" "zzz").map
        (fun p => MapStore.getAllEnrollments p.2) = some none ∧
    (LocalStore.verifyBiometric (LocalStore.storeEnrollment [] "alice" sampleData) "alice" "zzz").map
        (fun p => LocalStore.getAllEnrollments p.2)
      = some [{ userId := "alice", biometricType := "fingerprint", confidence := 1 }] := by
  constructor
  · decide
  · decide

/-! ## Claims about verifyBiometric -/

/-- C6 (amended): verifyBiometric logs exactly when an enrollment record was
found — provided the queried userId's slots are not polluted through the
shared key namespace (its record slot does not hold a log array and its log
slot does not hold a record, as happens when one userId equals another's log
key). When no record is stored it returns success:false/verified:false with
the state, hence every log, unchanged; when a record is stored it returns
success:true with verified equal to the comparison of the stored hash
against the provided hash, appends exactly one entry with that outcome to
this user's log (the log update of logVerificationAttempt), and changes no
other slot. Both storage variants. -/
theorem verifyBiometric_logs_iff_enrolled
    (s1 : MapStore.State) (s2 : LocalStore.State) (uid ph : String)
    (h1l : MapStore.logSlotOk s1 uid = true)
    (h2l : LocalStore.logSlotOk s2 uid = true) :
    ((mapGet s1 uid = none →
        MapStore.verifyBiometric s1 uid ph = some ({ success := false, verified := false }, s1)) ∧
     (∀ r, mapGet s1 uid = some (.enc r) →
        ∃ s', MapStore.verifyBiometric s1 uid ph =
            some ({ success := true, verified := compareHashes r.hash ph }, s') ∧
          MapStore.historyList s' uid =
            logStep (MapStore.historyList s1 uid) ⟨uid, compareHashes r.hash ph⟩ ∧
          ∀ k, k ≠ uid ++ "_log" → mapGet s' k = mapGet s1 k)) ∧
    ((mapGet s2 (LocalStore.userKey uid) = none →
        LocalStore.verifyBiometric s2 uid ph = some ({ success := false, verified := false }, s2)) ∧
     (∀ r, mapGet s2 (LocalStore.userKey uid) = some (.record r) →
        ∃ s', LocalStore.verifyBiometric s2 uid ph =
            some ({ success := true, verified := compareHashes r.hash ph }, s') ∧
          LocalStore.historyList s' uid =
            logStep (LocalStore.historyList s2 uid) ⟨uid, compareHashes r.hash ph⟩ ∧
          ∀ k, k ≠ LocalStore.logKey uid → mapGet s' k = mapGet s2 k)) := by
  refine ⟨⟨?_, ?_⟩, ⟨?_, ?_⟩⟩
  · intro hnone
    unfold MapStore.verifyBiometric MapStore.retrieveEnrollment
    rw [hnone]
  · intro r hr
    unfold MapStore.verifyBiometric MapStore.retrieveEnrollment
      MapStore.logVerificationAttempt MapStore.historyList
    rw [hr]
    unfold MapStore.logSlotOk at h1l
    cases hslot : mapGet s1 (uid ++ "_log") with
    | none =>
      dsimp only
      refine ⟨_, rfl, ?_, ?_⟩
      · simp [mapGet_set_self]
      · intro k hk
        rw [mapGet_set_ne _ _ _ _ hk]
    | some v =>
      cases v with
      | enc r' =>
        rw [hslot] at h1l
        simp at h1l
      | log l =>
        dsimp only
        refine ⟨_, rfl, ?_, ?_⟩
        · simp [mapGet_set_self]
        · intro k hk
          rw [mapGet_set_ne _ _ _ _ hk]
  · intro hnone
    unfold LocalStore.verifyBiometric LocalStore.retrieveEnrollment
    rw [hnone]
  · intro r hr
    unfold LocalStore.verifyBiometric LocalStore.retrieveEnrollment
      LocalStore.logVerificationAttempt LocalStore.historyList
    rw [hr]
    unfold LocalStore.logSlotOk at h2l
    cases hslot : mapGet s2 (LocalStore.logKey uid) with
    | none =>
      dsimp only
      refine ⟨_, rfl, ?_, ?_⟩
      · simp [mapGet_set_self]
      · intro k hk
        rw [mapGet_set_ne _ _ _ _ hk]
    | some v =>
      cases v with
      | record r' =>
        rw [hslot] at h2l
        simp at h2l
      | log l =>
        dsimp only
        refine ⟨_, rfl, ?_, ?_⟩
        · simp [mapGet_set_self]
        · intro k hk
          rw [mapGet_set_ne _ _ _ _ hk]

/-- C6 witness: on the concrete state holding only bob's record, verifying
bob appends exactly one (failed) entry to bob's log. -/
theorem verifyBiometric_logs_iff_enrolled_witness :
    ∃ s', MapStore.verifyBiometric (MapStore.storeEnrollment [] "bob" sampleData) "bob" "zzz" =
        some ({ success := true, verified := compareHashes (mkRecord "bob" sampleData).hash "zzz" }, s') ∧
      MapStore.historyList s' "bob" =
        logStep (MapStore.historyList (MapStore.storeEnrollment [] "bob" sampleData) "bob")
          ⟨"bob", compareHashes (mkRecord "bob" sampleData).hash "zzz"⟩ ∧
      ∀ k, k ≠ "bob" ++ "_log" →
        mapGet s' k = mapGet (MapStore.storeEnrollment [] "bob" sampleData) k :=
  ((verifyBiometric_logs_iff_enrolled (MapStore.storeEnrollment [] "bob" sampleData) []
      "bob" "zzz" (by decide) (by decide)).1.2) (mkRecord "bob" sampleData) (by decide)

/-- C6 counterexample: the claim promises that for every userId with no
stored enrollment record, verifyBiometric returns success:false and logs
nothing. Reachable state: enroll bob, then verify bob once (this stores
bob's log array under the key bob_log in the same Map). Querying the userId
bob_log then meets that log array in its record slot: no enrollment record is
stored for bob_log (its slot content is not a record, witnessed by logSlotOk
of bob), yet verifyBiometric throws a TypeError (none) instead of returning
success:false/verified:false. -/
theorem verifyBiometric_unenrolled_counterexample :
    (MapStore.verifyBiometric (MapStore.storeEnrollment [] "bob" sampleData) "bob" "zzz").map
        (fun p => (MapStore.logSlotOk p.2 "bob", MapStore.verifyBiometric p.2 "bob_log" "h"))
      = some (true, none) := by
  decide

/-! ## Claim about the enrollment/verification round trip -/

/-- C1: end-to-end round trip. For every digest primitive that is total and
yields nonempty digests on SHA-256 (as crypto.subtle does — a SHA-256 hex
digest has 64 characters), every random stream and every username, enrolling
from an empty store succeeds and stores exactly the record whose hash H is
the SHA-256 digest of template ++ S, where template is the constant string of
the extraction stub and S is the freshly generated 32-byte (64 hex character)
salt; a subsequent verification run with the same extracted template reports
success with verified:true, and a verification run whose extracted template
yields a different digest for its salted input (the collision-freeness of
SHA-256 at these two points) reports verified:false. -/
theorem enrollment_verification_round_trip
    (digest : String → String → Option String) (randomValues : Nat → Fin 256)
    (username : String)
    (htot : ∀ d, (digest "SHA-256" d).isSome)
    (hne : ∀ d h, digest "SHA-256" d = some h → h ≠ "") :
    ∃ H S st,
      enrollFingerprint digest randomValues [] username = some ((H, S), st) ∧
      SaltGen.generate randomValues 0 32 = .ok (S, 32) ∧
      digest "SHA-256" (template ++ S) = some H ∧
      mapGet st username =
        some (.enc { userId := username, biometricType := "fingerprint", hash := H,
                     salt := S, algorithm := "SHA-256", confidence := (49 : Rat)/50 }) ∧
      (verifyFingerprint digest st username).1 = { success := true, verified := true } ∧
      (∀ tpl, digest "SHA-256" (tpl ++ S) ≠ digest "SHA-256" (template ++ S) →
        (verifyFingerprintWith digest tpl st username).1 =
          { success := true, verified := false }) := by
  set S := SaltGen.arrayToHex ((List.range 32).map fun i => randomValues (0 + i)) with hSdef
  have hgen : SaltGen.generate randomValues 0 32 = .ok (S, 32) := by
    unfold SaltGen.generate
    rw [if_neg (by decide)]
  obtain ⟨H, hH⟩ := Option.isSome_iff_exists.mp (htot (template ++ S))
  have hHne : H ≠ "" := hne _ _ hH
  have hhash : hashWithSalt digest template S "SHA-256" = .ok H := by
    unfold hashWithSalt jsHash
    rw [hH]
  have hrec : mkRecord username
      { type := "fingerprint", hash := H, salt := S,
        algorithm := "SHA-256", confidence := (49 : Rat)/50 } =
      { userId := username, biometricType := "fingerprint", hash := H,
        salt := S, algorithm := "SHA-256", confidence := (49 : Rat)/50 } := by
    unfold mkRecord
    rw [if_neg (by decide : ¬("fingerprint" : String) = "")]
    rw [if_neg (by decide : ¬("SHA-256" : String) = "")]
    rw [if_neg (by norm_num : ¬((49 : Rat)/50) = 0)]
  refine ⟨H, S, MapStore.storeEnrollment [] username
      { type := "fingerprint", hash := H, salt := S,
        algorithm := "SHA-256", confidence := (49 : Rat)/50 },
    ?_, hgen, hH, ?_, ?_, ?_⟩
  · unfold enrollFingerprint
    rw [hgen]
    dsimp only
    rw [hhash]
  · unfold MapStore.storeEnrollment
    rw [hrec, mapGet_set_self]
  · unfold verifyFingerprint verifyFingerprintWith MapStore.retrieveEnrollment
      MapStore.storeEnrollment
    rw [hrec, mapGet_set_self]
    dsimp only
    rw [hhash]
    dsimp only
    rw [compareHashes_self hHne]
    unfold MapStore.verifyBiometric MapStore.retrieveEnrollment
      MapStore.logVerificationAttempt
    rw [mapGet_set_self]
    dsimp only
    rw [mapGet_set_ne _ _ _ _ (append_log_ne username)]
    dsimp only [mapGet]
    rfl
  · intro tpl htpl
    obtain ⟨H2, hH2⟩ := Option.isSome_iff_exists.mp (htot (tpl ++ S))
    have hH2ne : H2 ≠ H := by
      intro hcontra
      rw [hH2, hH, hcontra] at htpl
      exact htpl rfl
    unfold verifyFingerprintWith MapStore.retrieveEnrollment MapStore.storeEnrollment
    rw [hrec, mapGet_set_self]
    dsimp only
    have hhash2 : hashWithSalt digest tpl S "SHA-256" = .ok H2 := by
      unfold hashWithSalt jsHash
      rw [hH2]
    rw [hhash2]
    dsimp only
    rw [compareHashes_ne_false hH2ne]
    unfold MapStore.verifyBiometric MapStore.retrieveEnrollment
      MapStore.logVerificationAttempt
    rw [mapGet_set_self]
    dsimp only
    rw [mapGet_set_ne _ _ _ _ (append_log_ne username)]
    dsimp only [mapGet]
    rfl

/-- C1 witness: with the concrete injective digest that prepends an h and
the all-zero random stream, the round trip for alice holds. -/
theorem enrollment_verification_round_trip_witness :
    ∃ H S st,
      enrollFingerprint (fun _ d => some ("h" ++ d)) (fun _ => (0 : Fin 256)) [] "alice" =
        some ((H, S), st) ∧
      SaltGen.generate (fun _ => (0 : Fin 256)) 0 32 = .ok (S, 32) ∧
      (fun (_ d : String) => some ("h" ++ d)) "SHA-256" (template ++ S) = some H ∧
      mapGet st "alice" =
        some (.enc { userId := "alice", biometricType := "fingerprint", hash := H,
                     salt := S, algorithm := "SHA-256", confidence := (49 : Rat)/50 }) ∧
      (verifyFingerprint (fun _ d => some ("h" ++ d)) st "alice").1 =
        { success := true, verified := true } ∧
      (∀ tpl, (fun (_ d : String) => some ("h" ++ d)) "SHA-256" (tpl ++ S) ≠
            (fun (_ d : String) => some ("h" ++ d)) "SHA-256" (template ++ S) →
        (verifyFingerprintWith (fun _ d => some ("h" ++ d)) tpl st "alice").1 =
          { success := true, verified := false }) :=
  enrollment_verification_round_trip (fun _ d => some ("h" ++ d)) (fun _ => (0 : Fin 256))
    "alice" (fun _ => rfl)
    (by
      intro d h2 hh habs
      rw [← Option.some.inj hh] at habs
      have hlen := congrArg String.length habs
      rw [string_length_append] at hlen
      have h1 : ("h" : String).length = 1 := rfl
      have h0 : ("" : String).length = 0 := rfl
      omega)

/-! ## Equivalence of the two storage variants (underscore-free userIds) -/

theorem underscore_in_append_log (u : String) : '_' ∈ (u ++ "_log").data := by
  rw [String.data_append]
  refine List.mem_append.mpr (Or.inr ?_)
  decide

theorem underscore_in_logKey (u : String) : '_' ∈ (LocalStore.logKey u).data :=
  underscore_in_append_log u

theorem underscore_not_in_userKey {u : String} (hu : underscoreFree u) :
    '_' ∉ (LocalStore.userKey u).data := by
  unfold LocalStore.userKey
  rw [String.data_append]
  intro hmem
  rcases List.mem_append.mp hmem with hmem | hmem
  · revert hmem
    decide
  · exact hu hmem

theorem ne_of_underscore {a b : String} (ha : '_' ∉ a.data) (hb : '_' ∈ b.data) :
    a ≠ b :=
  fun h => ha (h ▸ hb)

theorem userKey_inj {u v : String} (h : LocalStore.userKey u = LocalStore.userKey v) :
    u = v := by
  unfold LocalStore.userKey at h
  have hd := congrArg String.data h
  rw [String.data_append, String.data_append] at hd
  exact String.ext (List.append_cancel_left hd)

theorem append_log_inj {u v : String} (h : u ++ "_log" = v ++ "_log") : u = v := by
  have hd := congrArg String.data h
  rw [String.data_append, String.data_append] at hd
  exact String.ext (List.append_cancel_right hd)

theorem logKey_inj {u v : String} (h : LocalStore.logKey u = LocalStore.logKey v) :
    u = v :=
  append_log_inj h

theorem storeRel_nil : StoreRel [] [] :=
  ⟨fun _ _ => Or.inl ⟨rfl, rfl⟩, fun _ _ => Or.inl ⟨rfl, rfl⟩⟩

theorem StoreRel.setUser {s1 : MapStore.State} {s2 : LocalStore.State}
    (hrel : StoreRel s1 s2) {uid : String} (hu : underscoreFree uid) (r : BioRecord) :
    StoreRel (mapSet s1 uid (.enc r))
      (mapSet s2 (LocalStore.userKey uid) (.record r)) := by
  obtain ⟨hrec, hlog⟩ := hrel
  constructor
  · intro u' hu'
    by_cases he : u' = uid
    · subst he
      exact Or.inr ⟨r, by rw [mapGet_set_self], by rw [mapGet_set_self]⟩
    · have h2 : LocalStore.userKey u' ≠ LocalStore.userKey uid :=
        fun hk => he (userKey_inj hk)
      rw [mapGet_set_ne _ _ _ _ he, mapGet_set_ne _ _ _ _ h2]
      exact hrec u' hu'
  · intro u' hu'
    have h1 : u' ++ "_log" ≠ uid :=
      (ne_of_underscore hu (underscore_in_append_log u')).symm
    have h2 : LocalStore.logKey u' ≠ LocalStore.userKey uid :=
      (ne_of_underscore (underscore_not_in_userKey hu) (underscore_in_logKey u')).symm
    rw [mapGet_set_ne _ _ _ _ h1, mapGet_set_ne _ _ _ _ h2]
    exact hlog u' hu'

theorem StoreRel.setLog {s1 : MapStore.State} {s2 : LocalStore.State}
    (hrel : StoreRel s1 s2) {uid : String} (hu : underscoreFree uid) (l : List LogEntry) :
    StoreRel (mapSet s1 (uid ++ "_log") (.log l))
      (mapSet s2 (LocalStore.logKey uid) (.log l)) := by
  obtain ⟨hrec, hlog⟩ := hrel
  constructor
  · intro u' hu'
    have h1 : u' ≠ uid ++ "_log" :=
      ne_of_underscore hu' (underscore_in_append_log uid)
    have h2 : LocalStore.userKey u' ≠ LocalStore.logKey uid :=
      ne_of_underscore (underscore_not_in_userKey hu') (underscore_in_logKey uid)
    rw [mapGet_set_ne _ _ _ _ h1, mapGet_set_ne _ _ _ _ h2]
    exact hrec u' hu'
  · intro u' hu'
    by_cases he : u' = uid
    · subst he
      exact Or.inr ⟨l, by rw [mapGet_set_self], by rw [mapGet_set_self]⟩
    · have h1 : u' ++ "_log" ≠ uid ++ "_log" := fun hk => he (append_log_inj hk)
      have h2 : LocalStore.logKey u' ≠ LocalStore.logKey uid :=
        fun hk => he (logKey_inj hk)
      rw [mapGet_set_ne _ _ _ _ h1, mapGet_set_ne _ _ _ _ h2]
      exact hlog u' hu'

theorem runOp_rel (s1 : MapStore.State) (s2 : LocalStore.State) (op : Op)
    (hrel : StoreRel s1 s2) (hop : underscoreFree op.userId) :
    ∃ o s1' s2', MapStore.runOp s1 op = some (o, s1') ∧
      LocalStore.runOp s2 op = some (o, s2') ∧ StoreRel s1' s2' := by
  cases op with
  | store uid d =>
    refine ⟨.stored, _, _, rfl, rfl, ?_⟩
    exact StoreRel.setUser hrel hop (mkRecord uid d)
  | retrieve uid =>
    rcases hrel.1 uid hop with ⟨h1, h2⟩ | ⟨r, h1, h2⟩
    · refine ⟨.retrieved none, s1, s2, ?_, ?_, hrel⟩
      · simp [MapStore.runOp, MapStore.retrieveEnrollment, h1]
      · simp [LocalStore.runOp, LocalStore.retrieveEnrollment, h2]
    · refine ⟨.retrieved (some r), s1, s2, ?_, ?_, hrel⟩
      · simp [MapStore.runOp, MapStore.retrieveEnrollment, h1]
      · simp [LocalStore.runOp, LocalStore.retrieveEnrollment, h2]
  | verify uid ph =>
    rcases hrel.1 uid hop with ⟨h1, h2⟩ | ⟨r, h1, h2⟩
    · refine ⟨.verifyOutcome { success := false, verified := false }, s1, s2, ?_, ?_, hrel⟩
      · simp [MapStore.runOp, MapStore.verifyBiometric, MapStore.retrieveEnrollment, h1]
      · simp [LocalStore.runOp, LocalStore.verifyBiometric, LocalStore.retrieveEnrollment, h2]
    · rcases hrel.2 uid hop with ⟨g1, g2⟩ | ⟨l, g1, g2⟩
      · refine ⟨.verifyOutcome { success := true, verified := compareHashes r.hash ph },
          mapSet s1 (uid ++ "_log") (.log (logStep [] ⟨uid, compareHashes r.hash ph⟩)),
          mapSet s2 (LocalStore.logKey uid) (.log (logStep [] ⟨uid, compareHashes r.hash ph⟩)),
          ?_, ?_, StoreRel.setLog hrel hop _⟩
        · simp [MapStore.runOp, MapStore.verifyBiometric, MapStore.retrieveEnrollment,
            MapStore.logVerificationAttempt, h1, g1]
        · simp [LocalStore.runOp, LocalStore.verifyBiometric, LocalStore.retrieveEnrollment,
            LocalStore.logVerificationAttempt, h2, g2]
      · refine ⟨.verifyOutcome { success := true, verified := compareHashes r.hash ph },
          mapSet s1 (uid ++ "_log") (.log (logStep l ⟨uid, compareHashes r.hash ph⟩)),
          mapSet s2 (LocalStore.logKey uid) (.log (logStep l ⟨uid, compareHashes r.hash ph⟩)),
          ?_, ?_, StoreRel.setLog hrel hop _⟩
        · simp [MapStore.runOp, MapStore.verifyBiometric, MapStore.retrieveEnrollment,
            MapStore.logVerificationAttempt, h1, g1]
        · simp [LocalStore.runOp, LocalStore.verifyBiometric, LocalStore.retrieveEnrollment,
            LocalStore.logVerificationAttempt, h2, g2]
  | update uid u =>
    rcases hrel.1 uid hop with ⟨h1, h2⟩ | ⟨r, h1, h2⟩
    · refine ⟨.updated false, s1, s2, ?_, ?_, hrel⟩
      · simp [MapStore.runOp, MapStore.updateEnrollment, MapStore.retrieveEnrollment, h1]
      · simp [LocalStore.runOp, LocalStore.updateEnrollment, LocalStore.retrieveEnrollment, h2]
    · refine ⟨.updated true,
        mapSet s1 uid (.enc (applyUpdates r u)),
        mapSet s2 (LocalStore.userKey uid) (.record (applyUpdates r u)),
        ?_, ?_, StoreRel.setUser hrel hop _⟩
      · simp [MapStore.runOp, MapStore.updateEnrollment, MapStore.retrieveEnrollment, h1]
      · simp [LocalStore.runOp, LocalStore.updateEnrollment, LocalStore.retrieveEnrollment, h2]
  | history uid =>
    rcases hrel.2 uid hop with ⟨g1, g2⟩ | ⟨l, g1, g2⟩
    · refine ⟨.historyIs [], s1, s2, ?_, ?_, hrel⟩
      · simp [MapStore.runOp, MapStore.getVerificationHistory, g1]
      · simp [LocalStore.runOp, LocalStore.getVerificationHistory, g2]
    · refine ⟨.historyIs l, s1, s2, ?_, ?_, hrel⟩
      · simp [MapStore.runOp, MapStore.getVerificationHistory, g1]
      · simp [LocalStore.runOp, LocalStore.getVerificationHistory, g2]

theorem runOps_rel (ops : List Op) (s1 : MapStore.State) (s2 : LocalStore.State)
    (hrel : StoreRel s1 s2) (hops : ∀ op ∈ ops, underscoreFree op.userId) :
    ∃ tr s1' s2', MapStore.runOps s1 ops = some (tr, s1') ∧
      LocalStore.runOps s2 ops = some (tr, s2') ∧ StoreRel s1' s2' := by
  induction ops generalizing s1 s2 with
  | nil => exact ⟨[], s1, s2, rfl, rfl, hrel⟩
  | cons op ops ih =>
    obtain ⟨o, t1, t2, ho1, ho2, hrel'⟩ :=
      runOp_rel s1 s2 op hrel (hops op (List.mem_cons_self op ops))
    obtain ⟨tr, u1, u2, hr1, hr2, hrel''⟩ :=
      ih t1 t2 hrel' (fun q hq => hops q (List.mem_cons_of_mem op hq))
    refine ⟨o :: tr, u1, u2, ?_, ?_, hrel''⟩
    · unfold MapStore.runOps
      rw [ho1]
      dsimp only
      rw [hr1]
      rfl
    · unfold LocalStore.runOps
      rw [ho2]
      dsimp only
      rw [hr2]
      rfl

/-- C9 (amended): the two BiometricStorage variants are observationally
equivalent — same results and same per-user record/log contents, up to
generated identifiers and timestamps — for every sequence of storeEnrollment,
retrieveEnrollment, verifyBiometric, updateEnrollment and
getVerificationHistory calls whose userIds contain no underscore (an
underscore-bearing userId can collide with a log key in the shared
namespace). deleteEnrollment and getAllEnrollments are excluded: they
demonstrably diverge — delete clears the verification log only in the
localStorage variant, and the listing fails in the Map variant as soon as
any log exists. -/
theorem storage_variants_equivalent (ops : List Op)
    (hops : ∀ op ∈ ops, underscoreFree op.userId) :
    ∃ tr s1' s2', MapStore.runOps [] ops = some (tr, s1') ∧
      LocalStore.runOps [] ops = some (tr, s2') ∧ StoreRel s1' s2' :=
  runOps_rel ops [] [] storeRel_nil hops

/-- C9 witness: a concrete enroll/verify/retrieve/history sequence for alice
runs identically on both variants. -/
theorem storage_variants_equivalent_witness :
    ∃ tr s1' s2',
      MapStore.runOps []
          [Op.store "alice" sampleData, Op.verify "alice" "zzz",
           Op.retrieve "alice", Op.history "alice"] = some (tr, s1') ∧
      LocalStore.runOps []
          [Op.store "alice" sampleData, Op.verify "alice" "zzz",
           Op.retrieve "alice", Op.history "alice"] = some (tr, s2') ∧
      StoreRel s1' s2' :=
  storage_variants_equivalent
    [Op.store "alice" sampleData, Op.verify "alice" "zzz",
     Op.retrieve "alice", Op.history "alice"]
    (by decide)

/-- C9 counterexample: the full storage interface is not observationally
equivalent. Store alice, verify alice once, delete alice, then read the
verification history: the Map variant still returns alice's one-entry log
(delete does not clear logs there) while the localStorage variant returns
the empty log. -/
theorem storage_variants_diverge_on_delete :
    (MapStore.verifyBiometric (MapStore.storeEnrollment [] "alice" sampleData) "alice" "zzz").map
        (fun p =>
          MapStore.getVerificationHistory (MapStore.deleteEnrollment p.2 "alice").2 "alice")
      = some (.log [⟨"alice", false⟩]) ∧
    (LocalStore.verifyBiometric (LocalStore.storeEnrollment [] "alice" sampleData) "alice" "zzz").map
        (fun p =>
          LocalStore.getVerificationHistory (LocalStore.deleteEnrollment p.2 "alice").2 "alice")
      = some (.log []) := by
  constructor
  · decide
  · decide
